import Mathlib

/-!
Verification of the fcsrw FCS-file reader against its specification.

The definitions below are a shallow embedding of the Rust source
(src/api.rs, src/main.rs).  Machine integers are modelled as `Nat` with
explicit `% 2^w` where Rust wrapping semantics matter; fallible Rust code
returns `Except`/`Option`; Rust panics are modelled as `Option.none`.
Floating-point keyword values only ever appear here at exactly
representable decimal literals, so they are modelled structurally as
decimal literals (see DecF below).
-/

/-- Error kinds of Rust integer parsing (std::num::IntErrorKind). -/
inductive IntErrorKind where
  | Empty
  | InvalidDigit
  | PosOverflow
  deriving DecidableEq, Repr

/-- One step of Rust unsigned-integer parsing: consume decimal digits left to
right, failing with InvalidDigit at the first non-digit and with PosOverflow
as soon as the accumulator exceeds the type maximum (as Rust's from_str does). -/
def parseUIntCore (maxv : Nat) : List Char → Nat → Except IntErrorKind Nat
  | [], acc => .ok acc
  | c :: cs, acc =>
    if 48 ≤ c.toNat ∧ c.toNat ≤ 57 then
      let acc2 := acc * 10 + (c.toNat - 48)
      if maxv < acc2 then .error .PosOverflow else parseUIntCore maxv cs acc2
    else .error .InvalidDigit

/-- Rust `str::parse` for an unsigned integer type with maximum `maxv`:
an optional leading plus sign followed by at least one decimal digit. -/
def parseUInt (maxv : Nat) (s : String) : Except IntErrorKind Nat :=
  match s.data with
  | [] => .error .Empty
  | c :: cs =>
    if c.toNat = 43 then
      match cs with
      | [] => .error .InvalidDigit
      | _ => parseUIntCore maxv cs 0
    else parseUIntCore maxv (c :: cs) 0

/-- Rust `str::parse::<u8>`. -/
def parseU8 (s : String) : Except IntErrorKind Nat := parseUInt 255 s

/-- Rust `str::parse::<u32>`. -/
def parseU32 (s : String) : Except IntErrorKind Nat := parseUInt (2 ^ 32 - 1) s

/-- Rust `str::parse::<u64>`. -/
def parseU64 (s : String) : Except IntErrorKind Nat := parseUInt (2 ^ 64 - 1) s

/-- Value of a digit-only string (used to state theorems about the parsers
without mentioning Rust's incremental overflow detection). -/
def decimalVal (s : String) : Option Nat :=
  if s.data ≠ [] ∧ s.data.all (fun c => 48 ≤ c.toNat ∧ c.toNat ≤ 57) then
    some (s.data.foldl (fun a c => a * 10 + (c.toNat - 48)) 0)
  else none

/-- A segment of an FCS file: a closed interval of byte offsets
(struct Segment in src/api.rs, fields begin/end, both u32). -/
structure Segment where
  begin : Nat
  end' : Nat
  deriving DecidableEq, Repr

/-- Segment::len (src/api.rs line 284): `end - begin`. -/
def Segment.len (s : Segment) : Nat := s.end' - s.begin

/-- Segment::num_bytes (src/api.rs line 288): `len + 1`. -/
def Segment.num_bytes (s : Segment) : Nat := s.len + 1

/-- Segment::is_unset (src/api.rs line 293): both offsets are 0. -/
def Segment.is_unset (s : Segment) : Bool := s.begin == 0 && s.end' == 0

/-- read_segment (src/api.rs lines 5607-5618): seek to `begin` and read
`num_bytes` bytes (Read::take reads at most that many). The seekable byte
source is modelled as the list of the file's bytes. -/
def read_segment (file : List Nat) (seg : Segment) : List Nat :=
  (file.drop seg.begin).take seg.num_bytes

/-- C10: for every Segment (with the constructor invariant begin ≤ end),
num_bytes returns end − begin + 1, hence is at least 1; the unset segment
(0,0) reports 1 byte, and read_segment on an unset segment still requests
the first byte of the file. -/
theorem c10_segment_num_bytes (s : Segment) (h : s.begin ≤ s.end') :
    s.num_bytes = s.end' - s.begin + 1 ∧ 1 ≤ s.num_bytes ∧
      (s.is_unset = true → s.num_bytes = 1) ∧
      (∀ file : List Nat, s.is_unset = true → read_segment file s = file.take 1) := by
  refine ⟨rfl, Nat.le_add_left 1 _, ?_, ?_⟩
  · intro hu
    simp only [Segment.is_unset, Bool.and_eq_true, beq_iff_eq] at hu
    simp [Segment.num_bytes, Segment.len, hu.1, hu.2]
  · intro file hu
    simp only [Segment.is_unset, Bool.and_eq_true, beq_iff_eq] at hu
    simp [read_segment, Segment.num_bytes, Segment.len, hu.1, hu.2]

/-- C10 witness: the theorem applied to the unset segment (0,0). -/
theorem c10_segment_witness :
    Segment.num_bytes ⟨0, 0⟩ = 0 - 0 + 1 ∧ 1 ≤ Segment.num_bytes ⟨0, 0⟩ ∧
      (Segment.is_unset ⟨0, 0⟩ = true → Segment.num_bytes ⟨0, 0⟩ = 1) ∧
      (∀ file : List Nat, Segment.is_unset ⟨0, 0⟩ = true →
        read_segment file ⟨0, 0⟩ = file.take 1) :=
  c10_segment_num_bytes ⟨0, 0⟩ (by decide)

/-- Rust `s.split(",")` for the one-byte separator: accumulate characters of
the current field, starting a new field at each comma (code 44). -/
def splitCommaAux : List Char → List Char → List String
  | [], cur => [String.mk cur.reverse]
  | c :: cs, cur =>
    if c.toNat = 44 then String.mk cur.reverse :: splitCommaAux cs []
    else splitCommaAux cs (c :: cur)

/-- Rust `s.split(",").collect()`. -/
def splitComma (s : String) : List String := splitCommaAux s.data []

/-- The digit-accumulation step shared by the integer parsers. -/
def digitStep (a : Nat) (c : Char) : Nat := a * 10 + (c.toNat - 48)

theorem digitStep_le (a : Nat) (c : Char) : a ≤ digitStep a c := by
  unfold digitStep
  omega

theorem foldl_digitStep_le (cs : List Char) (a : Nat) : a ≤ cs.foldl digitStep a := by
  induction cs generalizing a with
  | nil => exact Nat.le_refl a
  | cons c cs ih => exact Nat.le_trans (digitStep_le a c) (ih (digitStep a c))

/-- When every prefix value stays within the bound (equivalently, the final
value does, by monotonicity), the incremental parser returns the fold. -/
theorem parseUIntCore_ok (maxv : Nat) (cs : List Char) (acc : Nat)
    (hd : cs.all (fun c => 48 ≤ c.toNat ∧ c.toNat ≤ 57) = true)
    (hb : cs.foldl digitStep acc ≤ maxv) :
    parseUIntCore maxv cs acc = .ok (cs.foldl digitStep acc) := by
  induction cs generalizing acc with
  | nil => rfl
  | cons c cs ih =>
    simp only [List.all_cons, Bool.and_eq_true, decide_eq_true_eq] at hd
    rw [List.foldl_cons] at hb ⊢
    have hstep : digitStep acc c ≤ maxv :=
      Nat.le_trans (foldl_digitStep_le cs (digitStep acc c)) hb
    have hstep2 : acc * 10 + (c.toNat - 48) ≤ maxv := hstep
    simp only [parseUIntCore]
    rw [if_pos hd.1, if_neg (by omega)]
    exact ih (digitStep acc c) hd.2 hb

/-- When the fold exceeds the bound, the incremental parser reports overflow
(provided the starting accumulator was still in range). -/
theorem parseUIntCore_overflow (maxv : Nat) (cs : List Char) (acc : Nat)
    (hd : cs.all (fun c => 48 ≤ c.toNat ∧ c.toNat ≤ 57) = true)
    (hacc : acc ≤ maxv) (hb : maxv < cs.foldl digitStep acc) :
    parseUIntCore maxv cs acc = .error .PosOverflow := by
  induction cs generalizing acc with
  | nil => simp only [List.foldl_nil] at hb; omega
  | cons c cs ih =>
    simp only [List.all_cons, Bool.and_eq_true, decide_eq_true_eq] at hd
    rw [List.foldl_cons] at hb
    simp only [parseUIntCore]
    rw [if_pos hd.1]
    by_cases hov : maxv < acc * 10 + (c.toNat - 48)
    · rw [if_pos hov]
    · rw [if_neg hov]
      exact ih (digitStep acc c) hd.2 (by unfold digitStep; omega) hb

/-- A digit-only string is parsed to its decimal value when that value is in
range, and to PosOverflow otherwise. -/
theorem parseUInt_decimalVal (maxv : Nat) (s : String) (v : Nat)
    (hv : decimalVal s = some v) :
    (v ≤ maxv → parseUInt maxv s = .ok v) ∧
      (maxv < v → parseUInt maxv s = .error .PosOverflow) := by
  unfold decimalVal at hv
  split at hv
  case isFalse => exact absurd hv (by simp)
  case isTrue hcond =>
    obtain ⟨hne, hall⟩ := hcond
    have hveq : s.data.foldl digitStep 0 = v := Option.some.inj hv
    cases hdata : s.data with
    | nil => exact absurd hdata hne
    | cons c cs =>
      rw [hdata] at hveq hall
      have hc : 48 ≤ c.toNat ∧ c.toNat ≤ 57 := by
        simp only [List.all_cons, Bool.and_eq_true, decide_eq_true_eq] at hall
        exact hall.1
      have hrw : parseUInt maxv s = parseUIntCore maxv (c :: cs) 0 := by
        simp only [parseUInt, hdata]
        rw [if_neg (show ¬(c.toNat = 43) by omega)]
      constructor
      · intro hle
        rw [hrw, parseUIntCore_ok maxv (c :: cs) 0 hall (by rw [hveq]; exact hle), hveq]
      · intro hlt
        rw [hrw]
        exact parseUIntCore_overflow maxv (c :: cs) 0 hall (Nat.zero_le maxv)
          (by rw [hveq]; exact hlt)

/-- Decidable equality for Except values. -/
instance {e a : Type} [DecidableEq e] [DecidableEq a] : DecidableEq (Except e a) := fun x y =>
  match x, y with
  | .ok u, .ok v =>
    if h : u = v then isTrue (by rw [h]) else isFalse (by intro hc; cases hc; exact h rfl)
  | .error u, .error v =>
    if h : u = v then isTrue (by rw [h]) else isFalse (by intro hc; cases hc; exact h rfl)
  | .ok _, .error _ => isFalse (by intro hc; cases hc)
  | .error _, .ok _ => isFalse (by intro hc; cases hc)

/-- A decimal floating-point literal sign? digits* (. digits*)?, the fragment
of Rust float syntax exercised in this development, kept unevaluated: the
denoted value is (−1)^neg · mant / 10^fracLen.  All concrete literals used
below are exactly representable in f32/f64 and pairwise distinct in value,
so structural equality of this model agrees with Rust float equality. -/
structure DecF where
  neg : Bool
  mant : Nat
  fracLen : Nat
  deriving DecidableEq, Repr

/-- Rust float-literal zero test (pattern 0.0 also matches -0.0). -/
def DecF.isZero (f : DecF) : Bool := f.mant == 0

/-- Restricted model of Rust `str::parse::<f32>`/`f64` on the decimal
fragment: optional sign, integer digits, optional point and fraction digits,
at least one digit overall. -/
def parseDecF (s : String) : Option DecF :=
  let signed : Bool × List Char :=
    match s.data with
    | c :: cs =>
      if c.toNat = 45 then (true, cs)
      else if c.toNat = 43 then (false, cs) else (false, c :: cs)
    | [] => (false, [])
  let ds := signed.2
  let intPart := ds.takeWhile (fun c => decide (48 ≤ c.toNat ∧ c.toNat ≤ 57))
  let rest := ds.dropWhile (fun c => decide (48 ≤ c.toNat ∧ c.toNat ≤ 57))
  match rest with
  | [] =>
    if intPart.isEmpty then none
    else some ⟨signed.1, intPart.foldl digitStep 0, 0⟩
  | dot :: frac =>
    if dot.toNat = 46 ∧ frac.all (fun c => 48 ≤ c.toNat ∧ c.toNat ≤ 57)
        ∧ ¬(intPart.isEmpty ∧ frac.isEmpty) then
      some ⟨signed.1, (intPart ++ frac).foldl digitStep 0, frac.length⟩
    else none

/-- The $PnR value (enum Range, src/api.rs lines 1341-1350).  Int stores
PnR − 1 as u64; Float stores the value as parsed. -/
inductive RangeV where
  | Int (n : Nat)
  | Float (f : DecF)
  deriving DecidableEq, Repr

/-- Errors of Range::from_str (enum RangeError). -/
inductive RangeErr where
  | IntE
  | FloatE
  deriving DecidableEq, Repr

/-- Range::from_str (src/api.rs lines 1366-1381): parse as u64 and subtract
one (Rust release-mode wrapping subtraction, hence the explicit mod 2^64;
a checked build would panic on the input "0"); on InvalidDigit fall back to
float parsing; on positive overflow saturate to u64::MAX. -/
def rangeFromStr (s : String) : Except RangeErr RangeV :=
  match parseU64 s with
  | .ok x => .ok (.Int ((x + (2 ^ 64 - 1)) % 2 ^ 64))
  | .error e =>
    match e with
    | .InvalidDigit =>
      match parseDecF s with
      | some f => .ok (.Float f)
      | none => .error .FloatE
    | .PosOverflow => .ok (.Int (2 ^ 64 - 1))
    | .Empty => .error .IntE

/-- C7 counterexample: the claim says parsing succeeds with Int(v−1) for
every in-range integer including v = 0, but at "0" the wrapping subtraction
produces Int(u64::MAX) — the same value as an overflowing range — and not a
predecessor of 0 (checked builds panic instead). -/
theorem c7_range_counterexample :
    rangeFromStr "0" = .ok (RangeV.Int (2 ^ 64 - 1)) ∧
      RangeV.Int (2 ^ 64 - 1) ≠ RangeV.Int (0 - 1) := by
  constructor
  · rfl
  · decide

/-- C7 amended: for decimal values 1 ≤ v < 2^64 the result is Int(v−1);
values ≥ 2^64 saturate to Int(u64::MAX); the value 0 wraps to Int(u64::MAX)
(panicking in checked builds); non-integer strings in the float fragment
yield Float. -/
theorem c7_range_amended :
    (∀ s v, decimalVal s = some v → 1 ≤ v → v < 2 ^ 64 →
      rangeFromStr s = .ok (RangeV.Int (v - 1))) ∧
    (∀ s v, decimalVal s = some v → 2 ^ 64 ≤ v →
      rangeFromStr s = .ok (RangeV.Int (2 ^ 64 - 1))) ∧
    rangeFromStr "0" = .ok (RangeV.Int (2 ^ 64 - 1)) ∧
    (∀ s f, parseU64 s = .error .InvalidDigit → parseDecF s = some f →
      rangeFromStr s = .ok (RangeV.Float f)) := by
  refine ⟨?_, ?_, rfl, ?_⟩
  · intro s v hv h1 h2
    have hok : parseU64 s = .ok v :=
      (parseUInt_decimalVal (2 ^ 64 - 1) s v hv).1 (by omega)
    have hmod : (v + (2 ^ 64 - 1)) % 2 ^ 64 = v - 1 := by omega
    simp only [rangeFromStr, hok, hmod]
  · intro s v hv h1
    have hov : parseU64 s = .error .PosOverflow :=
      (parseUInt_decimalVal (2 ^ 64 - 1) s v hv).2 (by omega)
    simp only [rangeFromStr, hov]
  · intro s f hinv hf
    simp only [rangeFromStr, hinv, hf]

/-- C7 witness: the amended theorem applied at the strings "5",
"18446744073709551616" (= 2^64) and "1.5". -/
theorem c7_range_witness :
    rangeFromStr "5" = .ok (RangeV.Int (5 - 1)) ∧
      rangeFromStr "18446744073709551616" = .ok (RangeV.Int (2 ^ 64 - 1)) ∧
      rangeFromStr "1.5" = .ok (RangeV.Float ⟨false, 15, 1⟩) :=
  ⟨c7_range_amended.1 "5" 5 (by decide) (by decide) (by decide),
   c7_range_amended.2.1 "18446744073709551616" (2 ^ 64) (by decide) (by decide),
   c7_range_amended.2.2.2 "1.5" ⟨false, 15, 1⟩ (by decide) (by decide)⟩

/-- The $PnB value (enum Bytes): a fixed byte width or variable width. -/
inductive BytesV where
  | Fixed (n : Nat)
  | Variable
  deriving DecidableEq, Repr

/-- Errors of Bytes::from_str (enum BytesError). -/
inductive BytesErr where
  | Int (e : IntErrorKind)
  | Range
  | NotOctet
  deriving DecidableEq, Repr

/-- Bytes::from_str (src/api.rs lines 1313-1330): "*" is Variable, otherwise
parse as u8 and reject values over 64 (Range) or with `x % 8 > 1` (NotOctet);
accepted values yield Fixed(x / 8). -/
def bytesFromStr (s : String) : Except BytesErr BytesV :=
  if s = "*" then .ok .Variable
  else
    match parseU8 s with
    | .error e => .error (.Int e)
    | .ok x =>
      if 64 < x then .error .Range
      else if 1 < x % 8 then .error .NotOctet
      else .ok (.Fixed (x / 8))

/-- C6 counterexample: the claim admits only multiples of 8 in 1..=64, but
the check `x % 8 > 1` accepts 9 (and any value ≡ 1 mod 8), and 0 is accepted
as well. -/
theorem c6_bytes_counterexample :
    bytesFromStr "9" = .ok (BytesV.Fixed 1) ∧ 9 % 8 ≠ 0 ∧
      bytesFromStr "0" = .ok (BytesV.Fixed 0) := by
  decide

/-- C6 amended: "*" yields Variable; a u8 value n is accepted iff n ≤ 64 and
n mod 8 ≤ 1 (so besides the multiples of 8 the code also accepts 0 and every
n ≡ 1 mod 8, such as 9), yielding Fixed(n / 8); n > 64 is a Range error, other
n a NotOctet error, and strings that fail u8 parsing are Int errors. -/
theorem c6_bytes_amended :
    bytesFromStr "*" = .ok BytesV.Variable ∧
    (∀ s n, parseU8 s = .ok n → n ≤ 64 → n % 8 ≤ 1 →
      bytesFromStr s = .ok (.Fixed (n / 8))) ∧
    (∀ s n, parseU8 s = .ok n → 64 < n → bytesFromStr s = .error .Range) ∧
    (∀ s n, parseU8 s = .ok n → n ≤ 64 → 1 < n % 8 →
      bytesFromStr s = .error .NotOctet) ∧
    (∀ s e, s ≠ "*" → parseU8 s = .error e → bytesFromStr s = .error (.Int e)) := by
  have hstar : ∀ s n, parseU8 s = Except.ok n → s ≠ "*" := by
    intro s n hp hs
    rw [hs, show parseU8 "*" = Except.error .InvalidDigit from rfl] at hp
    exact Except.noConfusion hp
  refine ⟨rfl, ?_, ?_, ?_, ?_⟩
  · intro s n hp h64 h8
    simp only [bytesFromStr, if_neg (hstar s n hp), hp]
    rw [if_neg (by omega), if_neg (by omega)]
  · intro s n hp h64
    simp only [bytesFromStr, if_neg (hstar s n hp), hp]
    rw [if_pos h64]
  · intro s n hp h64 h8
    simp only [bytesFromStr, if_neg (hstar s n hp), hp]
    rw [if_neg (by omega), if_pos h8]
  · intro s e hs hp
    simp only [bytesFromStr, if_neg hs, hp]

/-- C6 witness: the amended theorem applied at "16", "9", "72", "12" and "x". -/
theorem c6_bytes_witness :
    bytesFromStr "16" = .ok (BytesV.Fixed 2) ∧
      bytesFromStr "72" = .error .Range ∧
      bytesFromStr "12" = .error .NotOctet ∧
      bytesFromStr "x" = .error (.Int .InvalidDigit) :=
  ⟨by have h := c6_bytes_amended.2.1 "16" 16 (by decide) (by decide) (by decide)
      simpa using h,
   c6_bytes_amended.2.2.1 "72" 72 (by decide) (by decide),
   c6_bytes_amended.2.2.2.1 "12" 12 (by decide) (by decide) (by decide),
   c6_bytes_amended.2.2.2.2 "x" .InvalidDigit (by decide) (by decide)⟩

/-- $TR value (struct Trigger, src/api.rs lines 713-716): a measurement name
and a u32 threshold. -/
structure Trigger where
  measurement : String
  threshold : Nat
  deriving DecidableEq, Repr

/-- Errors of Trigger::from_str (enum TriggerError). -/
inductive TriggerErr where
  | IntFormat (e : IntErrorKind)
  | WrongFieldNumber
  deriving DecidableEq, Repr

/-- Trigger::from_str (src/api.rs lines 718-733): split on commas and expect
exactly a name and a u32 threshold. -/
def triggerFromStr (s : String) : Except TriggerErr Trigger :=
  match splitComma s with
  | [p, n1] =>
    match parseU32 n1 with
    | .ok t => .ok ⟨p, t⟩
    | .error e => .error (.IntFormat e)
  | _ => .error .WrongFieldNumber

/-- lookup_trigger_checked (src/api.rs lines 4198-4212): given the parsed
optional trigger and the set of measurement short names, the code drops the
trigger and pushes a meta error when the name IS contained in the set, and
keeps the trigger silently when it is not. -/
def lookup_trigger_checked (tr : Option Trigger) (names : List String) :
    Option Trigger × List String :=
  match tr with
  | some t =>
    if names.contains t.measurement then
      (none, ["$TRIGGER refers to non-existent measurements"])
    else (some t, [])
  | none => (none, [])

/-- C3: evaluation at the failing input.  "$TR = P1,100" parses; with
measurements P1,P2 the name P1 exists, yet the code records the
cross-key error and drops the trigger, while the unknown name FSC is kept
with no diagnostic — the exact inversion of the claim. -/
theorem c3_trigger_check_eval :
    triggerFromStr "P1,100" = .ok ⟨"P1", 100⟩ ∧
      lookup_trigger_checked (some ⟨"P1", 100⟩) ["P1", "P2"] =
        (none, ["$TRIGGER refers to non-existent measurements"]) ∧
      lookup_trigger_checked (some ⟨"FSC", 1⟩) ["P1", "P2"] =
        (some ⟨"FSC", 1⟩, []) := by
  refine ⟨by decide, by decide, by decide⟩

/-- itertools `join(",")`. -/
def joinComma : List String → String
  | [] => ""
  | [x] => x
  | x :: xs => x ++ "," ++ joinComma xs

/-- Pad a string with leading zeros up to length `k`. -/
def padZerosTo (s : String) (k : Nat) : String :=
  String.mk (List.replicate (k - s.length) (Char.ofNat 48)) ++ s

/-- Rust Display of a decimal float literal: integral values print without a
point (as Rust's shortest representation does), fractional ones with the
point restored. -/
def showDecF (f : DecF) : String :=
  let sign := if f.neg then "-" else ""
  if f.fracLen = 0 then sign ++ toString f.mant
  else sign ++ toString (f.mant / 10 ^ f.fracLen) ++ "." ++
    padZerosTo (toString (f.mant % 10 ^ f.fracLen)) f.fracLen

/-- The $PnE value (enum Scale, src/api.rs lines 843-847). -/
inductive ScaleV where
  | Linear
  | Log (decades offset : DecF)
  deriving DecidableEq, Repr

/-- Errors of Scale::from_str (enum ScaleError). -/
inductive ScaleErr where
  | FloatError
  | WrongFormat
  deriving DecidableEq, Repr

/-- Scale::from_str (src/api.rs lines 874-890): two comma-separated floats,
(0,0) meaning Linear and anything else Log. -/
def scaleFromStr (s : String) : Except ScaleErr ScaleV :=
  match splitComma s with
  | [ds, os] =>
    match parseDecF ds with
    | none => .error .FloatError
    | some f1 =>
      match parseDecF os with
      | none => .error .FloatError
      | some f2 =>
        if f1.isZero && f2.isZero then .ok .Linear else .ok (.Log f1 f2)
  | _ => .error .WrongFormat

/-- Display for Scale (src/api.rs lines 851-858): Log prints the two floats,
Linear prints the literal string "Lin". -/
def scaleDisplay : ScaleV → String
  | .Linear => "Lin"
  | .Log d o => showDecF d ++ "," ++ showDecF o

/-- Errors of sequence-typed keywords (enum FixedSeqError / NamedFixedSeqError). -/
inductive FixedSeqErr where
  | BadFloat
  | WrongLength (total expected : Nat)
  | BadLength
  deriving DecidableEq, Repr

/-- Wrapper adding the uniqueness failure (enum NamedFixedSeqError). -/
inductive NamedFixedSeqErr where
  | Seq (e : FixedSeqErr)
  | NonUnique
  deriving DecidableEq, Repr

/-- The $SPILLOVER value (struct Spillover, src/api.rs lines 513-519). -/
structure Spillover where
  measurements : List String
  matrix : List (List DecF)
  deriving DecidableEq, Repr

/-- itertools `unique()` collected: first occurrences in order. -/
def firstOccurrences : List String → List String
  | [] => []
  | x :: xs =>
    let rest := firstOccurrences xs
    x :: rest.filter (fun y => y ≠ x)

/-- itertools `chunks(n)` with an explicit fuel (the list length). -/
def chunksAux {α : Type} (n : Nat) : Nat → List α → List (List α)
  | 0, _ => []
  | _, [] => []
  | fuel + 1, l => l.take n :: chunksAux n fuel (l.drop n)

/-- itertools `chunks(n)` collected (n > 0 in all uses; chunks(0) panics in
Rust and is never reached here). -/
def chunksList {α : Type} (n : Nat) (l : List α) : List (List α) :=
  if n = 0 then [] else chunksAux n l.length l

/-- Spillover::from_str (src/api.rs lines 521-567): "n,name1..namen,f11..fnn";
the first field is the matrix dimension, then n measurement names (which must
be unique), then n·n floats in row-major order. -/
def spilloverFromStr (s : String) : Except NamedFixedSeqErr Spillover :=
  match splitComma s with
  | [] => .error (.Seq .BadLength)
  | first :: rest =>
    match parseU64 first with
    | .error _ => .error (.Seq .BadLength)
    | .ok n =>
      let nn := n * n
      let expected := n + nn
      let measurements := rest.take n
      let values := (rest.drop n).take nn
      let remainder := ((rest.drop n).drop nn).length
      let total := measurements.length + values.length + remainder
      if total ≠ expected then .error (.Seq (.WrongLength total expected))
      else if (firstOccurrences measurements).length ≠ n then .error .NonUnique
      else
        let fvalues := values.filterMap parseDecF
        if fvalues.length ≠ nn then .error (.Seq .BadFloat)
        else .ok ⟨measurements, chunksList n fvalues⟩

/-- Display for Spillover (src/api.rs lines 569-575): prints the dimension
and the joined matrix values — the measurement names are not printed. -/
def spilloverDisplay (sp : Spillover) : String :=
  toString sp.measurements.length ++ "," ++
    joinComma (sp.matrix.map (fun ys => joinComma (ys.map showDecF)))

/-- C2: evaluation at the failing inputs.  Scale: "0,0" parses to Linear but
Linear prints as "Lin", which the parser rejects with WrongFormat.  Spillover:
"1,A,0" parses, but printing drops the measurement name, yielding "1,0",
which re-parses as a WrongLength error — so neither type round-trips as the
claim (and the spec) require. -/
theorem c2_roundtrip_eval :
    scaleFromStr "0,0" = .ok ScaleV.Linear ∧
      scaleDisplay ScaleV.Linear = "Lin" ∧
      scaleFromStr "Lin" = .error .WrongFormat ∧
      spilloverFromStr "1,A,0" =
        .ok ⟨["A"], [[⟨false, 0, 0⟩]]⟩ ∧
      spilloverDisplay ⟨["A"], [[⟨false, 0, 0⟩]]⟩ = "1,0" ∧
      spilloverFromStr "1,0" = .error (.Seq (.WrongLength 1 2)) := by
  refine ⟨by decide, by decide, by decide, by decide, by decide, by decide⟩

/-- Doubling loop behind the next-power-of-two computation: starting from
`acc` (always a power of two), double until it reaches `x`, with enough fuel. -/
def pow2GoFuel (x : Nat) : Nat → Nat → Nat
  | 0, acc => acc
  | fuel + 1, acc => if x ≤ acc then acc else pow2GoFuel x fuel (2 * acc)

/-- Least power of two that is ≥ x (with fuel x, which always suffices). -/
def leastPow2GE (x : Nat) : Nat := pow2GoFuel x x 1

theorem pow2GoFuel_ge (x : Nat) :
    ∀ fuel acc, x ≤ 2 ^ fuel * acc → x ≤ pow2GoFuel x fuel acc := by
  intro fuel
  induction fuel with
  | zero => intro acc h; simpa using h
  | succ f ih =>
    intro acc h
    unfold pow2GoFuel
    by_cases hx : x ≤ acc
    · rw [if_pos hx]; exact hx
    · rw [if_neg hx]
      apply ih
      calc x ≤ 2 ^ (f + 1) * acc := h
        _ = 2 ^ f * (2 * acc) := by ring

theorem leastPow2GE_ge (x : Nat) : x ≤ leastPow2GE x :=
  pow2GoFuel_ge x x 1 (by simpa using (Nat.lt_two_pow x).le)

theorem pow2GoFuel_pow (x fuel : Nat) :
    ∀ j, ∃ k, pow2GoFuel x fuel (2 ^ j) = 2 ^ k := by
  induction fuel with
  | zero => intro j; exact ⟨j, rfl⟩
  | succ f ih =>
    intro j
    unfold pow2GoFuel
    by_cases hx : x ≤ 2 ^ j
    · rw [if_pos hx]; exact ⟨j, rfl⟩
    · rw [if_neg hx]
      have h2 : 2 * 2 ^ j = 2 ^ (j + 1) := by ring
      rw [h2]
      exact ih (j + 1)

theorem leastPow2GE_pow (x : Nat) : ∃ k, leastPow2GE x = 2 ^ k := by
  have h := pow2GoFuel_pow x x 0
  simpa [leastPow2GE] using h

theorem pow2GoFuel_min (x : Nat) :
    ∀ fuel j m, j ≤ m → x ≤ 2 ^ m → pow2GoFuel x fuel (2 ^ j) ≤ 2 ^ m := by
  intro fuel
  induction fuel with
  | zero => intro j m hjm _; exact Nat.pow_le_pow_right (by omega) hjm
  | succ f ih =>
    intro j m hjm hx
    unfold pow2GoFuel
    by_cases hb : x ≤ 2 ^ j
    · rw [if_pos hb]; exact Nat.pow_le_pow_right (by omega) hjm
    · rw [if_neg hb]
      have hlt : 2 ^ j < 2 ^ m := Nat.lt_of_lt_of_le (by omega) hx
      have hjm2 : j + 1 ≤ m := by
        have := (Nat.pow_lt_pow_iff_right (a := 2) (by omega)).mp hlt
        omega
      have h2 : 2 * 2 ^ j = 2 ^ (j + 1) := by ring
      rw [h2]
      exact ih (j + 1) m hjm2 hx

theorem leastPow2GE_min (x m : Nat) (h : x ≤ 2 ^ m) : leastPow2GE x ≤ 2 ^ m := by
  have := pow2GoFuel_min x x 0 m (Nat.zero_le m) h
  simpa [leastPow2GE] using this

/-- Modelled from the spec: IntMath::next_power_2 lives in crate::numeric,
which is absent from src/.  Per the spec it is the "sign-free
next-power-of-two" of the argument, "clamped" to the capacity of the native
type of byte width dtlen (the spec's words: "Bitmask: Next-power-of-two ≥
$PnR, clamped"). -/
def next_power_2 (dtlen x : Nat) : Nat := min (leastPow2GE x) (2 ^ (8 * dtlen))

/-- Modelled from the spec: NumProps::from_u64 lives in crate::numeric,
which is absent from src/.  It converts a u64 to the native integer type of
byte width dtlen, i.e. a Rust as-cast, which truncates mod 2^(8·dtlen). -/
def from_u64 (dtlen x : Nat) : Nat := x % 2 ^ (8 * dtlen)

/-- IntFromBytes::range_to_bitmask (src/api.rs lines 2433-2438): a Float
range has no bitmask; an Int range (the stored $PnR − 1) is converted to the
native type and rounded up to a power of two. -/
def range_to_bitmask (dtlen : Nat) (r : RangeV) : Option Nat :=
  match r with
  | .Float _ => none
  | .Int i => some (next_power_2 dtlen (from_u64 dtlen i))

/-- Native-type byte width used by make_int_parser (src/api.rs lines
1443-1455): widths 1,2 use u8,u16; widths 3,4 use u32; widths 5..8 use u64. -/
def intDtlen (b : Nat) : Nat :=
  if b = 1 then 1 else if b = 2 then 2 else if b ≤ 4 then 4 else 8

/-- make_int_parser (src/api.rs lines 1443-1455), restricted to the bitmask
it stores: widths outside 1..=8 are errors. -/
def makeIntParserBitmask (b : Nat) (r : RangeV) : Option Nat :=
  if 1 ≤ b ∧ b ≤ 8 then range_to_bitmask (intDtlen b) r else none

/-- C4 counterexample: for a width-3 column the bitmask is computed in the
u32 native type with no clamp at 2^24, so the stored range 2^30 produces the
bitmask 2^30, which exceeds 2^(8·3). -/
theorem c4_bitmask_counterexample :
    makeIntParserBitmask 3 (RangeV.Int (2 ^ 30)) = some (2 ^ 30) ∧
      ¬(2 ^ 30 ≤ 2 ^ (8 * 3)) := by
  constructor
  · decide
  · decide

/-- C4 amended: for the power-of-two widths b ∈ 1,2,4,8 (native type equal
to the column width) and stored range below 2^(8b), the bitmask is exactly
the least power of two ≥ the stored range and never exceeds 2^(8b); for every
width 1..=8 the bitmask is a power of two bounded by 2^(8·DTLEN) where DTLEN
is the native-type width (4 for b=3, 8 for b=5,6,7), which for those widths
can exceed 2^(8b). -/
theorem c4_bitmask_amended :
    (∀ b i, (b = 1 ∨ b = 2 ∨ b = 4 ∨ b = 8) → i < 2 ^ (8 * b) →
      makeIntParserBitmask b (RangeV.Int i) = some (leastPow2GE i) ∧
        i ≤ leastPow2GE i ∧ leastPow2GE i ≤ 2 ^ (8 * b) ∧
        (∀ k, i ≤ 2 ^ k → leastPow2GE i ≤ 2 ^ k)) ∧
    (∀ b i m, 1 ≤ b → b ≤ 8 → makeIntParserBitmask b (RangeV.Int i) = some m →
      m ≤ 2 ^ (8 * intDtlen b) ∧ ∃ k, m = 2 ^ k) := by
  constructor
  · intro b i hb hi
    have hdt : intDtlen b = b := by
      rcases hb with rfl | rfl | rfl | rfl <;> rfl
    have hb18 : 1 ≤ b ∧ b ≤ 8 := by rcases hb with rfl | rfl | rfl | rfl <;> omega
    have hle : leastPow2GE i ≤ 2 ^ (8 * b) := leastPow2GE_min i (8 * b) hi.le
    have hmask : makeIntParserBitmask b (RangeV.Int i) = some (leastPow2GE i) := by
      simp only [makeIntParserBitmask, range_to_bitmask, next_power_2, from_u64,
        if_pos hb18, hdt, Nat.mod_eq_of_lt hi, Nat.min_eq_left hle]
    exact ⟨hmask, leastPow2GE_ge i, hle, fun k hk => leastPow2GE_min i k hk⟩
  · intro b i m hb1 hb8 hm
    simp only [makeIntParserBitmask, range_to_bitmask, next_power_2, from_u64,
      if_pos (And.intro hb1 hb8)] at hm
    have heq : min (leastPow2GE (i % 2 ^ (8 * intDtlen b))) (2 ^ (8 * intDtlen b)) = m :=
      Option.some.inj hm
    constructor
    · rw [← heq]; exact Nat.min_le_right _ _
    · obtain ⟨k, hk⟩ := leastPow2GE_pow (i % 2 ^ (8 * intDtlen b))
      rw [← heq, hk]
      by_cases hcmp : 2 ^ k ≤ 2 ^ (8 * intDtlen b)
      · exact ⟨k, Nat.min_eq_left hcmp⟩
      · exact ⟨8 * intDtlen b, Nat.min_eq_right (by omega)⟩

/-- C4 witness: the amended theorem applied at width 2 with stored range
1000 (bitmask 1024) and, through the second part, at width 3. -/
theorem c4_bitmask_witness :
    (makeIntParserBitmask 2 (RangeV.Int 1000) = some (leastPow2GE 1000) ∧
      1000 ≤ leastPow2GE 1000 ∧ leastPow2GE 1000 ≤ 2 ^ (8 * 2) ∧
      (∀ k, 1000 ≤ 2 ^ k → leastPow2GE 1000 ≤ 2 ^ k)) ∧
    (2 ^ 30 ≤ 2 ^ (8 * intDtlen 3) ∧ ∃ k, (2 ^ 30 : Nat) = 2 ^ k) :=
  ⟨c4_bitmask_amended.1 2 1000 (Or.inr (Or.inl rfl)) (by decide),
   c4_bitmask_amended.2 3 (2 ^ 30) (2 ^ 30) (by decide) (by decide) (by decide)⟩

/-- Endianness (enum Endian). -/
inductive EndianV where
  | little
  | big
  deriving DecidableEq, Repr

/-- Sized byte order (enum SizedByteOrd): an endianness or an explicit byte
permutation, stored 0-based (ByteOrd::from_str subtracts 1, src/api.rs line
678). -/
inductive SizedByteOrdV where
  | endian (e : EndianV)
  | order (pi : List Nat)
  deriving DecidableEq, Repr

/-- Little-endian value of a byte buffer (byte 0 least significant). -/
def fromLittle (buf : List Nat) : Nat := buf.foldr (fun b acc => acc * 256 + b) 0

/-- Big-endian value of a byte buffer (byte 0 most significant). -/
def fromBig (buf : List Nat) : Nat := buf.foldl (fun acc b => acc * 256 + b) 0

/-- Rust slice copy_from_slice: panics (modelled as none) unless source and
destination have the same length. -/
def copyFromSlice {α : Type} (dst src : List α) : Option (List α) :=
  if dst.length = src.length then some src else none

/-- OrderedFromBytes::read_from_ordered (src/api.rs lines 2400-2410): read
OLEN bytes, scatter byte i of the input to position order[i] of a zeroed
DTLEN buffer, and interpret the buffer little-endian.  The parsed orders are
in-bounds 0-based permutations, so List.set never falls outside the buffer. -/
def read_from_ordered (dtlen olen : Nat) (order : List Nat) (stream : List Nat) :
    Option (Nat × List Nat) :=
  if stream.length < olen then none
  else
    let tmp := stream.take olen
    let buf := (order.zip tmp).foldl (fun bf ji => bf.set ji.1 ji.2)
      (List.replicate dtlen 0)
    some (fromLittle buf, stream.drop olen)

/-- IntFromBytes::read_int (src/api.rs lines 2470-2496): read INTLEN bytes
into a DTLEN native-endian buffer.  Big endian sets b = DTLEN − INTLEN and
copies `tmp[b..]` (of length INTLEN − b) onto `buf[b..]` (of length INTLEN),
which panics whenever b > 0; little endian copies the INTLEN bytes to the
low end; an explicit order delegates to read_from_ordered. -/
def read_int (dtlen intlen : Nat) (byteord : SizedByteOrdV) (stream : List Nat) :
    Option (Nat × List Nat) :=
  match byteord with
  | .order o => read_from_ordered dtlen intlen o stream
  | .endian e =>
    if stream.length < intlen then none
    else
      let tmp := stream.take intlen
      let rest := stream.drop intlen
      match e with
      | .big =>
        let b := dtlen - intlen
        match copyFromSlice ((List.replicate dtlen 0).drop b) (tmp.drop b) with
        | none => none
        | some s => some (fromBig (List.replicate b 0 ++ s), rest)
      | .little =>
        some (fromLittle (tmp ++ List.replicate (dtlen - intlen) 0), rest)

/-- IntFromBytes::read_int_masked (src/api.rs lines 2462-2468): read and
clamp to the bitmask. -/
def read_int_masked (dtlen intlen : Nat) (byteord : SizedByteOrdV)
    (bitmask : Nat) (stream : List Nat) : Option (Nat × List Nat) :=
  match read_int dtlen intlen byteord stream with
  | some (x, rest) => some (min x bitmask, rest)
  | none => none

/-- C5: evaluation at the failing input.  A width-3 big-endian column (native
type u32, so b = 1) panics on the mismatched slice copy, while the claim says
it reads the three bytes into the high end of the zero-padded buffer (value
0x010203 here).  Little-endian and explicit-permutation reads of the same
bytes succeed and consume exactly three bytes. -/
theorem c5_read_int_eval :
    read_int 4 3 (.endian .big) [1, 2, 3, 99] = none ∧
      read_int 4 3 (.endian .little) [1, 2, 3, 99] = some (197121, [99]) ∧
      read_int 4 3 (.order [2, 1, 0]) [1, 2, 3, 99] = some (66051, [99]) ∧
      read_int_masked 4 3 (.endian .little) 1024 [1, 2, 3, 99] =
        some (1024, [99]) ∧
      (66051 : Nat) = 1 * 65536 + 2 * 256 + 3 := by
  refine ⟨by decide, by decide, by decide, by decide, by decide⟩

/-- Kinds of diagnostics produced by total_events; the Bool is the error
level (true = error, as pushed by push_meta_error / push_meta_warning). -/
inductive TEDiag where
  | widthDiv
  | totMismatch
  deriving DecidableEq, Repr

/-- VersionedMetadata::total_events (src/api.rs lines 3062-3106): divide the
DATA-segment byte count by the event width; a nonzero remainder is an error
(dropping the count) under enforce_data_width_divisibility and otherwise a
warning keeping the floor; then, if $TOT is present and disagrees with the
computed count, push an error under enforce_matching_tot, else a warning. -/
def total_events (nbytes width : Nat) (tot : Option Nat)
    (enforceDiv enforceTot : Bool) : Option Nat × List (Bool × TEDiag) :=
  let res := nbytes / width
  let base : Option Nat × List (Bool × TEDiag) :=
    if 0 < nbytes % width then
      if enforceDiv then (none, [(true, .widthDiv)])
      else (some res, [(false, .widthDiv)])
    else (some res, [])
  match base.1 with
  | none => (none, base.2)
  | some x =>
    match tot with
    | some t =>
      if x ≠ t then (some x, base.2 ++ [(enforceTot, .totMismatch)])
      else (some x, base.2)
    | none => (some x, base.2)

/-- C8: with event width W > 0 and DATA byte count N, the computed row count
is N/W when W divides N; otherwise enforce_data_width_divisibility decides
between an error (row count dropped) and a warning with ⌊N/W⌋; and whenever
$TOT is present and differs from a computed row count, an error is recorded
iff enforce_matching_tot is set, otherwise a warning. -/
theorem c8_total_events_spec (nbytes width : Nat) (tot : Option Nat)
    (enforceDiv enforceTot : Bool) (hw : 0 < width) :
    (nbytes % width = 0 →
      (total_events nbytes width tot enforceDiv enforceTot).1 = some (nbytes / width)) ∧
    (nbytes % width ≠ 0 → enforceDiv = true →
      total_events nbytes width tot enforceDiv enforceTot = (none, [(true, .widthDiv)])) ∧
    (nbytes % width ≠ 0 → enforceDiv = false →
      (total_events nbytes width tot enforceDiv enforceTot).1 = some (nbytes / width) ∧
        (false, TEDiag.widthDiv) ∈ (total_events nbytes width tot enforceDiv enforceTot).2) ∧
    (∀ x t, (total_events nbytes width tot enforceDiv enforceTot).1 = some x →
      tot = some t → x ≠ t →
      (((true, TEDiag.totMismatch) ∈ (total_events nbytes width tot enforceDiv enforceTot).2)
          ↔ enforceTot = true) ∧
      (((false, TEDiag.totMismatch) ∈ (total_events nbytes width tot enforceDiv enforceTot).2)
          ↔ enforceTot = false)) := by
  refine ⟨?_, ?_, ?_, ?_⟩
  · intro hmod
    unfold total_events
    simp only [hmod, Nat.lt_irrefl, if_false]
    cases tot with
    | none => rfl
    | some t =>
      by_cases hx : nbytes / width ≠ t
      · simp [hx]
      · simp [hx]
  · intro hmod hdiv
    unfold total_events
    simp only [Nat.pos_of_ne_zero hmod, if_true, hdiv]
  · intro hmod hdiv
    unfold total_events
    simp only [Nat.pos_of_ne_zero hmod, if_true, hdiv]
    cases tot with
    | none => simp
    | some t =>
      by_cases hx : nbytes / width ≠ t
      · simp [hx]
      · simp [hx]
  · intro x t hx htot hxt
    subst htot
    unfold total_events at hx ⊢
    by_cases hmod : 0 < nbytes % width <;>
      cases enforceDiv <;> by_cases hq : nbytes / width = t <;>
      cases enforceTot <;>
      simp_all

/-- C8 witness: 10 bytes in rows of width 3 with $TOT = 5 under the lenient
policies: a floor of 3 rows with a divisibility warning, and the mismatch
against $TOT recorded as a warning, not an error. -/
theorem c8_total_events_witness :
    ((10 : Nat) % 3 ≠ 0 → (false : Bool) = false →
      (total_events 10 3 (some 5) false false).1 = some (10 / 3) ∧
        (false, TEDiag.widthDiv) ∈ (total_events 10 3 (some 5) false false).2) ∧
    (∀ x t, (total_events 10 3 (some 5) false false).1 = some x →
      (some 5 : Option Nat) = some t → x ≠ t →
      (((true, TEDiag.totMismatch) ∈ (total_events 10 3 (some 5) false false).2)
          ↔ (false : Bool) = true) ∧
      (((false, TEDiag.totMismatch) ∈ (total_events 10 3 (some 5) false false).2)
          ↔ (false : Bool) = false)) :=
  ⟨(c8_total_events_spec 10 3 (some 5) false false (by decide)).2.2.1,
   (c8_total_events_spec 10 3 (some 5) false false (by decide)).2.2.2⟩

/-- Error kinds of Segment::try_new_adjusted (enum SegmentErrorKind) plus the
missing-keyword and unparsable cases of parse_segment. -/
inductive SegParseErr where
  | missing
  | badInt
  | range
  | inverted
  deriving DecidableEq, Repr

/-- Segment::try_new_adjusted (src/api.rs lines 241-273): add the signed
corrections in widened (i64) arithmetic, require both results to fit u32,
and reject inverted intervals. -/
def try_new_adjusted (b e : Nat) (db de : Int) : Except SegParseErr Segment :=
  let x : Int := (b : Int) + db
  let y : Int := (e : Int) + de
  if 0 ≤ x ∧ x < 2 ^ 32 ∧ 0 ≤ y ∧ y < 2 ^ 32 then
    if x.toNat > y.toNat then .error .inverted
    else .ok ⟨x.toNat, y.toNat⟩
  else .error .range

/-- parse_segment (src/api.rs lines 5456-5479): each offset keyword must be
present and parse as u32; both failures are collected, then the segment is
validated with the configured deltas. -/
def parse_segment (b e : Option String) (db de : Int) :
    Except (List SegParseErr) Segment :=
  let parse_one : Option String → Except SegParseErr Nat := fun s =>
    match s with
    | none => .error .missing
    | some v =>
      match parseU32 v with
      | .ok n => .ok n
      | .error _ => .error .badInt
  match parse_one b, parse_one e with
  | .ok bn, .ok en =>
    match try_new_adjusted bn en db de with
    | .ok seg => .ok seg
    | .error k => .error [k]
  | .error x, .error y => .error [x, y]
  | .error x, .ok _ => .error [x]
  | .ok _, .error y => .error [y]

/-- Diagnostics of find_raw_segments; headerTextMismatch is pushed at
warning level (push_msg_leveled with false). -/
inductive SegDiag where
  | headerTextMismatch
  | parseWarning
  deriving DecidableEq, Repr

/-- The DATA part of find_raw_segments (src/api.rs lines 5522-5546), used
for versions ≥ 3.0: parse $BEGINDATA/$ENDDATA at Error level; on success
prefer the HEADER segment with a warning when the HEADER segment is set and
disagrees; on failure the whole lookup is the Failure "DATA segment could
not be found", regardless of the HEADER segment. -/
def find_raw_data_segment (d0 d1 : Option String) (db de : Int) (hdr : Segment) :
    Except Unit (Segment × List SegDiag) :=
  match parse_segment d0 d1 db de with
  | .ok seg =>
    if ¬hdr.is_unset ∧ seg ≠ hdr then .ok (hdr, [.headerTextMismatch])
    else .ok (seg, [])
  | .error _ => .error ()

/-- The ANALYSIS part of find_raw_segments (src/api.rs lines 5559-5593):
parse at Warning level (failures become warnings and an absent segment);
an absent TEXT segment falls back to the HEADER segment when that is set;
a present one is overridden by a disagreeing set HEADER segment with a
warning. -/
def find_raw_analysis_segment (a0 a1 : Option String) (db de : Int)
    (hdr : Segment) : Option Segment × List SegDiag :=
  match parse_segment a0 a1 db de with
  | .error es => (if hdr.is_unset then none else some hdr,
      es.map (fun _ => SegDiag.parseWarning))
  | .ok seg =>
    if ¬hdr.is_unset ∧ seg ≠ hdr then (some hdr, [.headerTextMismatch])
    else (some seg, [])

/-- C9 counterexample: with the HEADER DATA segment set to [256,511] and the
DATA offsets absent from TEXT, the lookup is an error even though the HEADER
segment is not unset, contradicting the claim that an error occurs only when
the HEADER DATA segment is also unset. -/
theorem c9_offsets_counterexample :
    find_raw_data_segment none none 0 0 ⟨256, 511⟩ = .error () ∧
      Segment.is_unset ⟨256, 511⟩ = false := by
  constructor
  · rfl
  · decide

/-- C9 amended: for versions ≥ 3.0, if the HEADER segment is unset the TEXT
segment is used; if both are present and disagree the HEADER segment is
preferred with a warning; if they agree the segment is kept silently; and
missing or unparsable DATA offsets in TEXT are an error regardless of the
HEADER DATA segment.  The ANALYSIS segment behaves the same except that a
parse failure falls back to the HEADER segment (or absence) with warnings
instead of an error. -/
theorem c9_offsets_amended :
    (∀ d0 d1 db de hdr seg, parse_segment d0 d1 db de = .ok seg →
      hdr.is_unset = true → find_raw_data_segment d0 d1 db de hdr = .ok (seg, [])) ∧
    (∀ d0 d1 db de hdr seg, parse_segment d0 d1 db de = .ok seg →
      hdr.is_unset = false → seg ≠ hdr →
      find_raw_data_segment d0 d1 db de hdr = .ok (hdr, [.headerTextMismatch])) ∧
    (∀ d0 d1 db de hdr seg, parse_segment d0 d1 db de = .ok seg → seg = hdr →
      find_raw_data_segment d0 d1 db de hdr = .ok (seg, [])) ∧
    (∀ d0 d1 db de hdr es, parse_segment d0 d1 db de = .error es →
      find_raw_data_segment d0 d1 db de hdr = .error ()) ∧
    (∀ a0 a1 db de hdr seg, parse_segment a0 a1 db de = .ok seg →
      hdr.is_unset = true →
      find_raw_analysis_segment a0 a1 db de hdr = (some seg, [])) ∧
    (∀ a0 a1 db de hdr seg, parse_segment a0 a1 db de = .ok seg →
      hdr.is_unset = false → seg ≠ hdr →
      find_raw_analysis_segment a0 a1 db de hdr = (some hdr, [.headerTextMismatch])) ∧
    (∀ a0 a1 db de hdr es, parse_segment a0 a1 db de = .error es →
      hdr.is_unset = false →
      find_raw_analysis_segment a0 a1 db de hdr =
        (some hdr, es.map (fun _ => SegDiag.parseWarning))) := by
  refine ⟨?_, ?_, ?_, ?_, ?_, ?_, ?_⟩
  · intro d0 d1 db de hdr seg hp hu
    simp [find_raw_data_segment, hp, hu]
  · intro d0 d1 db de hdr seg hp hu hne
    simp [find_raw_data_segment, hp, hu, hne]
  · intro d0 d1 db de hdr seg hp heq
    simp [find_raw_data_segment, hp, heq]
  · intro d0 d1 db de hdr es hp
    simp [find_raw_data_segment, hp]
  · intro a0 a1 db de hdr seg hp hu
    simp [find_raw_analysis_segment, hp, hu]
  · intro a0 a1 db de hdr seg hp hu hne
    simp [find_raw_analysis_segment, hp, hu, hne]
  · intro a0 a1 db de hdr es hp hu
    simp [find_raw_analysis_segment, hp, hu]

/-- C9 witness: TEXT offsets 100..200 against the set HEADER segment
[256,511]: the HEADER segment wins with a warning; the same TEXT offsets are
used directly when the HEADER segment is unset. -/
theorem c9_offsets_witness :
    find_raw_data_segment (some "100") (some "200") 0 0 ⟨256, 511⟩ =
        .ok (⟨256, 511⟩, [.headerTextMismatch]) ∧
      find_raw_data_segment (some "100") (some "200") 0 0 ⟨0, 0⟩ =
        .ok (⟨100, 200⟩, []) :=
  ⟨c9_offsets_amended.2.1 (some "100") (some "200") 0 0 ⟨256, 511⟩ ⟨100, 200⟩
      (by decide) (by decide) (by decide),
   c9_offsets_amended.1 (some "100") (some "200") 0 0 ⟨0, 0⟩ ⟨100, 200⟩
      (by decide) (by decide)⟩

/-- UTF-8 continuation byte (0x80..=0xBF). -/
def isCont (c : Nat) : Bool := 128 ≤ c && c ≤ 191

/-- UTF-8 validity checker (RFC 3629 byte ranges), with fuel bounded by the
list length so that the recursion is structural. -/
def validUtf8Fuel : Nat → List Nat → Bool
  | _, [] => true
  | 0, _ :: _ => false
  | fuel + 1, b :: rest =>
    if b < 128 then validUtf8Fuel fuel rest
    else if 194 ≤ b && b ≤ 223 then
      match rest with
      | c1 :: r => isCont c1 && validUtf8Fuel fuel r
      | [] => false
    else if b = 224 then
      match rest with
      | c1 :: c2 :: r => (160 ≤ c1 && c1 ≤ 191) && isCont c2 && validUtf8Fuel fuel r
      | _ => false
    else if (225 ≤ b && b ≤ 236) || b = 238 || b = 239 then
      match rest with
      | c1 :: c2 :: r => isCont c1 && isCont c2 && validUtf8Fuel fuel r
      | _ => false
    else if b = 237 then
      match rest with
      | c1 :: c2 :: r => (128 ≤ c1 && c1 ≤ 159) && isCont c2 && validUtf8Fuel fuel r
      | _ => false
    else if b = 240 then
      match rest with
      | c1 :: c2 :: c3 :: r =>
        (144 ≤ c1 && c1 ≤ 191) && isCont c2 && isCont c3 && validUtf8Fuel fuel r
      | _ => false
    else if 241 ≤ b && b ≤ 243 then
      match rest with
      | c1 :: c2 :: c3 :: r => isCont c1 && isCont c2 && isCont c3 && validUtf8Fuel fuel r
      | _ => false
    else if b = 244 then
      match rest with
      | c1 :: c2 :: c3 :: r =>
        (128 ≤ c1 && c1 ≤ 143) && isCont c2 && isCont c3 && validUtf8Fuel fuel r
      | _ => false
    else false

/-- Rust str::from_utf8 succeeds exactly on valid UTF-8 byte sequences. -/
def isValidUtf8 (l : List Nat) : Bool := validUtf8Fuel l.length l

/-- Rust str::to_uppercase restricted to its ASCII action (all keyword bytes
reaching this point in this development are ASCII). -/
def asciiUpper (bs : List Nat) : List Nat :=
  bs.map (fun b => if 97 ≤ b ∧ b ≤ 122 then b - 32 else b)

/-- Rust `str::replace(dd, d)` at the byte level: leftmost non-overlapping
replacement of the doubled delimiter by a single one. -/
def replacePairs (d : Nat) : List Nat → List Nat
  | [] => []
  | [b] => [b]
  | b1 :: b2 :: rest =>
    if b1 = d ∧ b2 = d then d :: replacePairs d rest
    else b1 :: replacePairs d (b2 :: rest)

/-- Positions (0-based) of the delimiter byte in the TEXT slice. -/
def delimPositionsAux (d : Nat) : List Nat → Nat → List Nat
  | [], _ => []
  | b :: bs, i =>
    if b = d then i :: delimPositionsAux d bs (i + 1)
    else delimPositionsAux d bs (i + 1)

/-- src/api.rs lines 5255-5259: the list of delimiter positions. -/
def delimPositions (xs : List Nat) (d : Nat) : List Nat := delimPositionsAux d xs 0

/-- src/api.rs lines 5268-5271: windows(2) over the positions, as pairs of
(position, distance to the next delimiter). -/
def rawBoundaries (ps : List Nat) : List (Nat × Nat) :=
  (ps.zip ps.tail).map (fun p => (p.1, p.2 - p.1))

/-- Grouping loop of itertools chunk_by keyed on the gap: collect maximal
runs of adjacent entries with equal second component. -/
def chunkGo (g : Nat) (cur : List (Nat × Nat)) : List (Nat × Nat) → List (List (Nat × Nat))
  | [] => [cur.reverse]
  | q :: rest =>
    if q.2 = g then chunkGo g (q :: cur) rest
    else cur.reverse :: chunkGo q.2 [q] rest

/-- itertools `chunk_by(|(_, x)| *x)` collected (src/api.rs line 5287). -/
def chunkByGap : List (Nat × Nat) → List (List (Nat × Nat))
  | [] => []
  | p :: rest => chunkGo p.2 [p] rest

/-- slice `chunks(2)`: pairs of consecutive elements, a final singleton kept. -/
def chunksOf2 {α : Type} : List α → List (List α)
  | [] => []
  | [a] => [[a]]
  | a :: b :: rest => [a, b] :: chunksOf2 rest

/-- xs[a..b] for byte slices. -/
def sliceBytes (xs : List Nat) (a b : Nat) : List Nat := (xs.drop a).take (b - a)

/-- The configuration switches of RawTextReader consulted by split_raw_text
(src/api.rs lines 5676-5753), with the source's field spelling. -/
structure RawTextConfig where
  no_delim_escape : Bool
  enforce_final_delim : Bool
  enforce_even : Bool
  enforce_nonempty : Bool
  error_on_invalid_utf8 : Bool
  enfore_keyword_ascii : Bool
  deriving DecidableEq, Repr

/-- Diagnostics pushed by split_raw_text; constructors carrying a Bool record
the level flag given to push_msg_leveled (true = error, false = warning);
delimAtBoundary is unignorable and the first/final boundary messages are
always errors. -/
inductive RTDiag where
  | delimAtBoundary
  | firstKeyDelim
  | finalValueDelim
  | lastCharNotDelim (isError : Bool)
  | keywordNotAscii (isError : Bool)
  | blankValue (isError : Bool)
  | invalidUtf8 (isError : Bool)
  | wordsNotEven (isError : Bool)
  deriving DecidableEq, Repr

/-- Escape-mode boundary filtering (src/api.rs lines 5281-5318): drop every
chunk of gap-1 boundaries (pushing DelimAtBoundary when a chunk has odd
length), then check that the surviving first/last boundaries touch the ends
of TEXT; none means the early return with the diagnostics collected so far. -/
def escapeBoundaries (rawB : List (Nat × Nat)) (textlen : Nat) :
    Option (List (Nat × Nat)) × List RTDiag :=
  let chunks := chunkByGap rawB
  let runDiags : List RTDiag := chunks.filterMap (fun c =>
    match c.head? with
    | some p => if p.2 = 1 ∧ c.length % 2 = 1 then some .delimAtBoundary else none
    | none => none)
  let filtered := (chunks.filter (fun c =>
    match c.head? with
    | some p => p.2 ≠ 1
    | none => false)).flatten
  match filtered.head?, filtered.getLast? with
  | some p0, some pf =>
    let d1 : List RTDiag := if p0.1 > 0 then [.firstKeyDelim] else []
    let d2 : List RTDiag := if pf.1 + pf.2 < textlen - 1 then [.finalValueDelim] else []
    (some filtered, runDiags ++ d1 ++ d2)
  | _, _ => (none, runDiags)

/-- The word-pair loop of split_raw_text (src/api.rs lines 5340-5385): check
UTF-8 validity of both words, uppercase the key, warn/error on non-ASCII
keys, and either keep empty-value handling (literal mode) or unescape doubled
delimiters (escape mode); an odd trailing chunk is the uneven-words message. -/
def processPairs (xs : List Nat) (delim : Nat) (conf : RawTextConfig) :
    List (List (Nat × Nat)) → List (List Nat × List Nat) × List RTDiag
  | [] => ([], [])
  | chunk :: rest =>
    let tailRes := processPairs xs delim conf rest
    match chunk with
    | [k, v] =>
      let kb := sliceBytes xs k.1 k.2
      let vb := sliceBytes xs v.1 v.2
      if isValidUtf8 kb && isValidUtf8 vb then
        let kupper := asciiUpper kb
        let asciiDiag : List RTDiag :=
          if !kupper.all (fun b => b < 128) then
            [.keywordNotAscii conf.enfore_keyword_ascii]
          else []
        if conf.no_delim_escape then
          if vb.isEmpty then
            (tailRes.1, asciiDiag ++ [.blankValue conf.enforce_nonempty] ++ tailRes.2)
          else ((kupper, vb) :: tailRes.1, asciiDiag ++ tailRes.2)
        else
          ((replacePairs delim kupper, replacePairs delim vb) :: tailRes.1,
            asciiDiag ++ tailRes.2)
      else (tailRes.1, .invalidUtf8 conf.error_on_invalid_utf8 :: tailRes.2)
    | _ => (tailRes.1, .wordsNotEven conf.enforce_even :: tailRes.2)

/-- split_raw_text (src/api.rs lines 5248-5387).  Note two faithful oddities
of the source: words end at the next raw delimiter position recorded before
filtering, and the final-delimiter check compares the bitwise complement of
the last position (usize `!`) against textlen − 1, as the source's
`!delim_positions.last().unwrap() == xs.len() - 1` parses. -/
def split_raw_text (xs : List Nat) (delim : Nat) (conf : RawTextConfig) :
    List (List Nat × List Nat) × List RTDiag :=
  let textlen := xs.length
  let dpos := delimPositions xs delim
  if dpos.length ≤ 2 then ([], [])
  else
    let rawB := rawBoundaries dpos
    let step1 : Option (List (Nat × Nat)) × List RTDiag :=
      if conf.no_delim_escape then (some rawB, [])
      else escapeBoundaries rawB textlen
    match step1.1 with
    | none => ([], step1.2)
    | some boundaries =>
      let lastDiag : List RTDiag :=
        if 2 ^ 64 - 1 - dpos.getLastD 0 = textlen - 1 then
          [.lastCharNotDelim conf.enforce_final_delim]
        else []
      let finalB := boundaries.map (fun p => (p.1 + 1, p.1 + p.2))
      let pairsRes := processPairs xs delim conf (chunksOf2 finalB)
      (pairsRes.1, step1.2 ++ lastDiag ++ pairsRes.2)

/-- C1: evaluation at the failing input.  The TEXT slice "/k/Acme// Inc/"
(delimiter 47) holds one pair whose value embeds an escaped doubled
delimiter.  The claim (and spec scenario S5) require the single pair
K -> "Acme/ Inc" with no diagnostic; the code instead drops the gap-1
boundary but keeps the run's final delimiter as a word boundary, splitting
the value, pushes the unignorable DelimAtBoundary error for this even run,
and then reports an uneven word count.  The third conjunct shows the
unescape the dead `replace` would have performed on the undivided word. -/
theorem c1_escape_split_eval :
    split_raw_text [47, 107, 47, 65, 99, 109, 101, 47, 47, 32, 73, 110, 99, 47] 47
        ⟨false, false, false, false, false, false⟩ =
      ([([75], [65, 99, 109, 101])], [.delimAtBoundary, .wordsNotEven false]) ∧
    split_raw_text [47, 107, 47, 65, 99, 109, 101, 47, 47, 32, 73, 110, 99, 47] 47
        ⟨false, false, false, false, false, false⟩ ≠
      ([([75], [65, 99, 109, 101, 47, 32, 73, 110, 99])], []) ∧
    replacePairs 47 [65, 99, 109, 101, 47, 47, 32, 73, 110, 99] =
      [65, 99, 109, 101, 47, 32, 73, 110, 99] := by
  refine ⟨by decide, by decide, by decide⟩
